import Mathlib

/-!
Shallow embedding of the gesture-controlled 3D cube controller
(`AR-Hand-Gesture-3D-Cube.py`, class `ARCubeController`).

The core control loop (lines 24-169 of the source) is modelled over `ℝ`:
machine floats become real numbers, Python `None` becomes `Option`, and a
Python `IndexError` raised by an out-of-range landmark access becomes an
`Option.none` result that propagates to the caller of the frame step.
Rendering, camera capture and the MediaPipe detector are external
collaborators; a frame's detector output is modelled as the list of
(handedness label, landmark list) pairs that the per-frame loop iterates
over (source lines 123-138).
-/

namespace ARCube

noncomputable section

/-- One MediaPipe landmark: a normalized 2D position.  The source only ever
reads the `x` and `y` coordinates of a landmark (lines 70-71, 94), so the
unused `z` coordinate is omitted. -/
structure Landmark where
  x : ℝ
  y : ℝ

/-- The detector output for one frame: the zipped
`(multi_handedness, multi_hand_landmarks)` sequence of source lines 124-125,
each entry a handedness label with its landmark list. -/
abbrev HandFrame := List (String × List Landmark)

/-- The persistent state of `ARCubeController`: every numeric or hand-role
attribute set in `__init__` (source lines 24-46) and mutated by
`process_hands`.  The screen-resolution and MediaPipe attributes are
external-collaborator handles and carry no control state. -/
@[ext] structure CubeState where
  scale : ℝ
  smooth_factor : ℝ
  target_scale : ℝ
  control_hand : Option String
  rotation_hand : Option String
  rotation_x : ℝ
  rotation_y : ℝ
  target_rotation_x : ℝ
  target_rotation_y : ℝ
  rotation_x_sensitivity : ℝ
  rotation_y_sensitivity : ℝ
  scale_min : ℝ
  scale_max : ℝ

/-- `ARCubeController.__init__` (source lines 24-46). -/
def initState : CubeState where
  scale := 2.0
  smooth_factor := 0.15
  target_scale := 2.0
  control_hand := none
  rotation_hand := none
  rotation_x := 20
  rotation_y := 30
  target_rotation_x := 20
  target_rotation_y := 30
  rotation_x_sensitivity := 180
  rotation_y_sensitivity := 360
  scale_min := 0.5
  scale_max := 5.0

/-- The Euclidean distance `np.sqrt(dx**2 + dy**2)` between a fingertip and
the palm center (source lines 70-72). -/
def dist2d (center tip : Landmark) : ℝ :=
  Real.sqrt ((tip.x - center.x) ^ 2 + (tip.y - center.y) ^ 2)

/-- `ARCubeController.calculate_palm_openness` (source lines 53-85).
Indexing `hand_landmarks[i]` raises `IndexError` in Python when `i` is out
of range; that fault is the `none` result here. -/
def calculate_palm_openness (hand_landmarks : List Landmark) : Option ℝ :=
  match hand_landmarks[0]?, hand_landmarks[4]?, hand_landmarks[8]?,
      hand_landmarks[12]?, hand_landmarks[16]?, hand_landmarks[20]? with
  | some palm_center, some thumb_tip, some index_tip, some middle_tip,
      some ring_tip, some pinky_tip =>
    let total_distance := dist2d palm_center thumb_tip +
      dist2d palm_center index_tip + dist2d palm_center middle_tip +
      dist2d palm_center ring_tip + dist2d palm_center pinky_tip
    let avg_distance := total_distance / 5
    let min_distance : ℝ := 0.10
    let max_distance : ℝ := 0.40
    let openness := (avg_distance - min_distance) / (max_distance - min_distance)
    some (max 0 (min 1 openness))
  | _, _, _, _, _, _ => none

/-- The average wrist-to-fingertip distance of source lines 68-75, before
normalization, exposed for stating properties of the openness map. -/
def avg_fingertip_distance (hand_landmarks : List Landmark) : Option ℝ :=
  match hand_landmarks[0]?, hand_landmarks[4]?, hand_landmarks[8]?,
      hand_landmarks[12]?, hand_landmarks[16]?, hand_landmarks[20]? with
  | some palm_center, some thumb_tip, some index_tip, some middle_tip,
      some ring_tip, some pinky_tip =>
    some ((dist2d palm_center thumb_tip + dist2d palm_center index_tip +
      dist2d palm_center middle_tip + dist2d palm_center ring_tip +
      dist2d palm_center pinky_tip) / 5)
  | _, _, _, _, _, _ => none

/-- The normalization applied to the average distance (source lines 79-83):
linear map from `[0.10, 0.40]` onto `[0, 1]`, clamped. -/
def normalize_openness (avg_distance : ℝ) : ℝ :=
  max 0 (min 1 ((avg_distance - 0.10) / (0.40 - 0.10)))

/-- `ARCubeController.smooth_value` (source lines 87-89). -/
def smooth_value (current target factor : ℝ) : ℝ :=
  current + (target - current) * factor

/-- `ARCubeController.get_hand_position` (source lines 91-94):
the wrist landmark's normalized coordinates, faulting when index 0 is out
of range. -/
def get_hand_position (hand_landmarks : List Landmark) : Option (ℝ × ℝ) :=
  (hand_landmarks[0]?).map fun wrist => (wrist.x, wrist.y)

/-- `ARCubeController.update_rotation_from_hand` (source lines 96-105). -/
def update_rotation_from_hand (s : CubeState) (hand_landmarks : List Landmark) :
    Option CubeState :=
  match get_hand_position hand_landmarks with
  | some (x, y) =>
    some { s with
      target_rotation_y := (x - 0.5) * s.rotation_y_sensitivity
      target_rotation_x := (0.5 - y) * s.rotation_x_sensitivity }
  | none => none

/-- `ARCubeController.update_scale_from_palm` (source lines 107-112). -/
def update_scale_from_palm (s : CubeState) (hand_landmarks : List Landmark) :
    Option CubeState :=
  match calculate_palm_openness hand_landmarks with
  | some openness =>
    some { s with
      target_scale := s.scale_min + openness * (s.scale_max - s.scale_min) }
  | none => none

/-- One iteration of the per-hand loop of source lines 124-138: a hand
labelled `"Left"` overwrites the `left_hand` slot, a hand labelled
`"Right"` overwrites the `right_hand` slot, any other label is ignored. -/
def classify_step (acc : Option (List Landmark) × Option (List Landmark))
    (entry : String × List Landmark) :
    Option (List Landmark) × Option (List Landmark) :=
  if entry.1 = "Left" then (some entry.2, acc.2)
  else if entry.1 = "Right" then (acc.1, some entry.2)
  else acc

/-- The full per-hand loop of source lines 120-138, yielding the final
`(left_hand, right_hand)` pair. -/
def extract_hands (frame : HandFrame) :
    Option (List Landmark) × Option (List Landmark) :=
  frame.foldl classify_step (none, none)

/-- The role-gated branch of `process_hands` (source lines 123-164): role
assignment plus the target updates of the detected hands, without the final
smoothing.  A frame with no detected hands takes the `else` branch of
source lines 162-164. -/
def route_hands (s : CubeState) (frame : HandFrame) : Option CubeState :=
  if frame.isEmpty then
    some { s with control_hand := none, rotation_hand := none }
  else
    match extract_hands frame with
    | (some left_hand, some right_hand) =>
      match update_scale_from_palm
          { s with control_hand := some "left", rotation_hand := some "right" }
          left_hand with
      | some s1 => update_rotation_from_hand s1 right_hand
      | none => none
    | (some left_hand, none) =>
      update_scale_from_palm
        { s with control_hand := some "left", rotation_hand := none } left_hand
    | (none, some right_hand) =>
      update_rotation_from_hand
        { s with control_hand := none, rotation_hand := some "right" } right_hand
    | (none, none) => some s

/-- The smoothing block of `process_hands` (source lines 166-169). -/
def apply_smoothing (s : CubeState) : CubeState :=
  { s with
    scale := smooth_value s.scale s.target_scale s.smooth_factor
    rotation_x := smooth_value s.rotation_x s.target_rotation_x s.smooth_factor
    rotation_y := smooth_value s.rotation_y s.target_rotation_y s.smooth_factor }

/-- `ARCubeController.process_hands` (source lines 114-171) restricted to
its effect on the controller state: hand routing, then smoothing.  A `none`
result is a Python `IndexError` escaping to the caller, in which case the
smoothing lines never run. -/
def process_hands (s : CubeState) (frame : HandFrame) : Option CubeState :=
  (route_hands s frame).map apply_smoothing

/-- Iterated frame processing: the per-frame calls of the main loop
(source line 355), faulting as soon as one frame faults. -/
def run_frames (s : CubeState) : List HandFrame → Option CubeState
  | [] => some s
  | frame :: rest =>
    match process_hands s frame with
    | some s' => run_frames s' rest
    | none => none

/-- `smooth_value` iterated against a constant target. -/
def smooth_iter (target factor current : ℝ) : ℕ → ℝ
  | 0 => current
  | n + 1 => smooth_value (smooth_iter target factor current n) target factor

/-- A well-formed 21-landmark hand with every landmark at `(x, y)`; in
particular its wrist is at `(x, y)` and all its fingertip distances are 0. -/
def handAt (x y : ℝ) : List Landmark :=
  List.replicate 21 ⟨x, y⟩

/-- The controller state after processing, from the initial state, a frame
containing a single Right hand at normalized position `(0.75, 0.5)`. -/
def rightOutState : CubeState :=
  apply_smoothing
    { initState with
      control_hand := none
      rotation_hand := some "right"
      target_rotation_y := (0.75 - 0.5) * 360
      target_rotation_x := (0.5 - 0.5) * 180 }

/-! ### Helper lemmas -/

theorem update_scale_elim {s : CubeState} {hand : List Landmark} {s' : CubeState}
    (h : update_scale_from_palm s hand = some s') :
    ∃ opn, calculate_palm_openness hand = some opn ∧
      s' = { s with target_scale := s.scale_min + opn * (s.scale_max - s.scale_min) } := by
  unfold update_scale_from_palm at h
  split at h
  · next opn heq => exact ⟨opn, heq, (Option.some.inj h).symm⟩
  · exact absurd h (by simp)

theorem update_rotation_elim {s : CubeState} {hand : List Landmark} {s' : CubeState}
    (h : update_rotation_from_hand s hand = some s') :
    ∃ w, hand[0]? = some w ∧
      s' = { s with
        target_rotation_y := (w.x - 0.5) * s.rotation_y_sensitivity,
        target_rotation_x := (0.5 - w.y) * s.rotation_x_sensitivity } := by
  unfold update_rotation_from_hand get_hand_position at h
  rcases hw : hand[0]? with _ | w
  · rw [hw] at h; exact absurd h (by simp)
  · rw [hw] at h
    simp only [Option.map_some'] at h
    exact ⟨w, rfl, (Option.some.inj h).symm⟩

/-- Case analysis on one successful `route_hands` step: the current values
and configuration are untouched, an absent role leaves its target fields
untouched, a present role rewrites its target fields from the extracted
hand, and the roles are recomputed from hand presence whenever the frame is
empty or some recognized hand is present. -/
theorem route_hands_elim (s : CubeState) (f : HandFrame) (s₁ : CubeState)
    (h : route_hands s f = some s₁) :
    s₁.scale = s.scale ∧ s₁.rotation_x = s.rotation_x ∧
    s₁.rotation_y = s.rotation_y ∧
    s₁.smooth_factor = s.smooth_factor ∧ s₁.scale_min = s.scale_min ∧
    s₁.scale_max = s.scale_max ∧
    s₁.rotation_x_sensitivity = s.rotation_x_sensitivity ∧
    s₁.rotation_y_sensitivity = s.rotation_y_sensitivity ∧
    ((extract_hands f).1 = none → s₁.target_scale = s.target_scale) ∧
    ((extract_hands f).2 = none → s₁.target_rotation_x = s.target_rotation_x ∧
      s₁.target_rotation_y = s.target_rotation_y) ∧
    (∀ l, (extract_hands f).1 = some l →
      ∃ opn, calculate_palm_openness l = some opn ∧
        s₁.target_scale = s.scale_min + opn * (s.scale_max - s.scale_min)) ∧
    (∀ r, (extract_hands f).2 = some r →
      ∃ w, r[0]? = some w ∧
        s₁.target_rotation_x = (0.5 - w.y) * s.rotation_x_sensitivity ∧
        s₁.target_rotation_y = (w.x - 0.5) * s.rotation_y_sensitivity) ∧
    ((f.isEmpty = true ∨ (extract_hands f).1.isSome = true ∨
        (extract_hands f).2.isSome = true) →
      s₁.control_hand = (if (extract_hands f).1.isSome then some "left" else none) ∧
      s₁.rotation_hand = (if (extract_hands f).2.isSome then some "right" else none)) := by
  unfold route_hands at h
  by_cases hfe : f.isEmpty
  · rw [if_pos hfe] at h
    have hf : f = [] := List.isEmpty_iff.mp hfe
    subst hf
    obtain rfl : s₁ = { s with control_hand := none, rotation_hand := none } :=
      (Option.some.inj h).symm
    simp [extract_hands]
  · rw [if_neg hfe] at h
    split at h
    · -- both hands: extract_hands f = (some l, some r)
      next l r hE =>
      split at h
      · next s1 hsc =>
        obtain ⟨opn, ho, rfl⟩ := update_scale_elim hsc
        obtain ⟨w, hw, rfl⟩ := update_rotation_elim h
        refine ⟨rfl, rfl, rfl, rfl, rfl, rfl, rfl, rfl, ?_, ?_, ?_, ?_, ?_⟩
        · intro h1; rw [hE] at h1; simp at h1
        · intro h2; rw [hE] at h2; simp at h2
        · intro l' hl
          rw [hE] at hl
          obtain rfl : l = l' := by simpa using hl
          exact ⟨opn, ho, rfl⟩
        · intro r' hr
          rw [hE] at hr
          obtain rfl : r = r' := by simpa using hr
          exact ⟨w, hw, rfl, rfl⟩
        · intro _; rw [hE]; simp
      · exact absurd h (by simp)
    · -- only left
      next l hE =>
      obtain ⟨opn, ho, rfl⟩ := update_scale_elim h
      refine ⟨rfl, rfl, rfl, rfl, rfl, rfl, rfl, rfl, ?_, ?_, ?_, ?_, ?_⟩
      · intro h1; rw [hE] at h1; simp at h1
      · intro _; exact ⟨rfl, rfl⟩
      · intro l' hl
        rw [hE] at hl
        obtain rfl : l = l' := by simpa using hl
        exact ⟨opn, ho, rfl⟩
      · intro r hr; rw [hE] at hr; simp at hr
      · intro _; rw [hE]; simp
    · -- only right
      next r hE =>
      obtain ⟨w, hw, rfl⟩ := update_rotation_elim h
      refine ⟨rfl, rfl, rfl, rfl, rfl, rfl, rfl, rfl, fun _ => rfl, ?_, ?_, ?_, ?_⟩
      · intro h2; rw [hE] at h2; simp at h2
      · intro l hl; rw [hE] at hl; simp at hl
      · intro r' hr
        rw [hE] at hr
        obtain rfl : r = r' := by simpa using hr
        exact ⟨w, hw, rfl, rfl⟩
      · intro _; rw [hE]; simp
    · -- neither recognized label
      next hE =>
      obtain rfl : s₁ = s := (Option.some.inj h).symm
      refine ⟨rfl, rfl, rfl, rfl, rfl, rfl, rfl, rfl, fun _ => rfl,
        fun _ => ⟨rfl, rfl⟩, ?_, ?_, ?_⟩
      · intro l hl; rw [hE] at hl; simp at hl
      · intro r hr; rw [hE] at hr; simp at hr
      · intro hd
        rcases hd with hd | hd | hd
        · exact absurd hd hfe
        · rw [hE] at hd; simp at hd
        · rw [hE] at hd; simp at hd

theorem process_hands_elim {s : CubeState} {f : HandFrame} {s' : CubeState}
    (h : process_hands s f = some s') :
    ∃ s₁, route_hands s f = some s₁ ∧ s' = apply_smoothing s₁ := by
  unfold process_hands at h
  rcases hr : route_hands s f with _ | s₁
  · rw [hr] at h; simp at h
  · rw [hr] at h
    simp only [Option.map_some'] at h
    exact ⟨s₁, rfl, (Option.some.inj h).symm⟩

theorem apply_smoothing_scale (s : CubeState) :
    (apply_smoothing s).scale = smooth_value s.scale s.target_scale s.smooth_factor := rfl

theorem apply_smoothing_rotation_x (s : CubeState) :
    (apply_smoothing s).rotation_x =
      smooth_value s.rotation_x s.target_rotation_x s.smooth_factor := rfl

theorem apply_smoothing_rotation_y (s : CubeState) :
    (apply_smoothing s).rotation_y =
      smooth_value s.rotation_y s.target_rotation_y s.smooth_factor := rfl

theorem process_empty : process_hands initState [] = some initState := by
  unfold process_hands route_hands
  simp only [List.isEmpty_nil, if_pos]
  unfold apply_smoothing smooth_value
  ext <;> simp [initState]


theorem foldr_classify_fst (m : HandFrame)
    (acc : Option (List Landmark) × Option (List Landmark)) :
    (m.foldr (fun p r => classify_step r p) acc).1 =
      ((m.find? fun p => p.1 == "Left").map Prod.snd).or acc.1 := by
  induction m with
  | nil => simp
  | cons p t ih =>
    unfold classify_step at ih ⊢
    simp only [List.foldr_cons]
    by_cases hL : p.1 = "Left"
    · simp [hL, List.find?_cons]
    · by_cases hR : p.1 = "Right"
      · simp [hL, hR, List.find?_cons, ih]
      · simp [hL, hR, List.find?_cons, ih]

theorem foldr_classify_snd (m : HandFrame)
    (acc : Option (List Landmark) × Option (List Landmark)) :
    (m.foldr (fun p r => classify_step r p) acc).2 =
      ((m.find? fun p => p.1 == "Right").map Prod.snd).or acc.2 := by
  induction m with
  | nil => simp
  | cons p t ih =>
    unfold classify_step at ih ⊢
    simp only [List.foldr_cons]
    by_cases hL : p.1 = "Left"
    · have hR : p.1 ≠ "Right" := by rw [hL]; decide
      simp [hL, hR, List.find?_cons, ih]
    · by_cases hR : p.1 = "Right"
      · simp [hL, hR, List.find?_cons]
      · simp [hL, hR, List.find?_cons, ih]

theorem extract_hands_eq (f : HandFrame) :
    extract_hands f =
      ((f.reverse.find? fun p => p.1 == "Left").map Prod.snd,
       (f.reverse.find? fun p => p.1 == "Right").map Prod.snd) := by
  unfold extract_hands
  have h : f.foldl classify_step (none, none) =
      f.reverse.foldr (fun p r => classify_step r p) (none, none) := by
    rw [← List.reverse_reverse f, List.foldl_reverse, List.reverse_reverse]
  rw [h]
  refine Prod.ext ?_ ?_
  · rw [foldr_classify_fst]; simp
  · rw [foldr_classify_snd]; simp


theorem extract_fst_eq_none_iff (f : HandFrame) :
    (extract_hands f).1 = none ↔ ∀ p ∈ f, ¬ p.1 = "Left" := by
  rw [extract_hands_eq]
  simp [List.find?_eq_none]

theorem extract_snd_eq_none_iff (f : HandFrame) :
    (extract_hands f).2 = none ↔ ∀ p ∈ f, ¬ p.1 = "Right" := by
  rw [extract_hands_eq]
  simp [List.find?_eq_none]

theorem extract_fst_isSome_iff (f : HandFrame) :
    (extract_hands f).1.isSome = true ↔ ∃ p ∈ f, p.1 = "Left" := by
  rw [extract_hands_eq]
  simp [List.find?_isSome]

theorem extract_snd_isSome_iff (f : HandFrame) :
    (extract_hands f).2.isSome = true ↔ ∃ p ∈ f, p.1 = "Right" := by
  rw [extract_hands_eq]
  simp [List.find?_isSome]

theorem openness_bounds {hand : List Landmark} {opn : ℝ}
    (h : calculate_palm_openness hand = some opn) : 0 ≤ opn ∧ opn ≤ 1 := by
  unfold calculate_palm_openness at h
  split at h
  · obtain rfl : opn = _ := (Option.some.inj h).symm
    exact ⟨le_max_left _ _, max_le (by norm_num) (min_le_left _ _)⟩
  · exact absurd h (by simp)

theorem calc_openness_eq {hand : List Landmark} (hlen : 20 < hand.length) :
    ∃ avg, avg_fingertip_distance hand = some avg ∧
      calculate_palm_openness hand = some (normalize_openness avg) := by
  have h0 := List.getElem?_eq_getElem (show 0 < hand.length by omega)
  have h4 := List.getElem?_eq_getElem (show 4 < hand.length by omega)
  have h8 := List.getElem?_eq_getElem (show 8 < hand.length by omega)
  have h12 := List.getElem?_eq_getElem (show 12 < hand.length by omega)
  have h16 := List.getElem?_eq_getElem (show 16 < hand.length by omega)
  have h20 := List.getElem?_eq_getElem (show 20 < hand.length by omega)
  unfold avg_fingertip_distance calculate_palm_openness
  rw [h0, h4, h8, h12, h16, h20]
  exact ⟨_, rfl, rfl⟩

theorem calc_openness_none_iff (hand : List Landmark) :
    calculate_palm_openness hand = none ↔ hand.length < 21 := by
  constructor
  · intro h
    by_contra hlen
    push_neg at hlen
    obtain ⟨avg, _, hc⟩ := calc_openness_eq (show 20 < hand.length by omega)
    rw [hc] at h
    exact Option.noConfusion h
  · intro hlen
    have h20 : hand[20]? = none := List.getElem?_eq_none (by omega)
    unfold calculate_palm_openness
    rw [h20]
    cases h0 : hand[0]? <;> cases h4 : hand[4]? <;> cases h8 : hand[8]? <;>
      cases h12 : hand[12]? <;> cases h16 : hand[16]? <;> simp

theorem get_hand_position_none_iff (hand : List Landmark) :
    get_hand_position hand = none ↔ hand.length = 0 := by
  unfold get_hand_position
  simp [List.getElem?_eq_none_iff, Nat.le_zero]

theorem handAt_getElem0 (x y : ℝ) : (handAt x y)[0]? = some ⟨x, y⟩ := rfl

theorem handAt_openness (x y : ℝ) :
    calculate_palm_openness (handAt x y) = some 0 := by
  unfold calculate_palm_openness handAt
  simp only [List.getElem?_replicate]
  norm_num [dist2d, min_def, max_def]

theorem smooth_value_mem {c t f lo hi : ℝ} (h0 : 0 ≤ f) (h1 : f ≤ 1)
    (hlc : lo ≤ c) (hch : c ≤ hi) (hlt : lo ≤ t) (hth : t ≤ hi) :
    lo ≤ smooth_value c t f ∧ smooth_value c t f ≤ hi := by
  unfold smooth_value
  constructor
  · nlinarith [mul_nonneg (sub_nonneg.mpr hlc) (sub_nonneg.mpr h1),
      mul_nonneg (sub_nonneg.mpr hlt) h0]
  · nlinarith [mul_nonneg (sub_nonneg.mpr hch) (sub_nonneg.mpr h1),
      mul_nonneg (sub_nonneg.mpr hth) h0]

theorem smooth_iter_gap (t f c : ℝ) (n : ℕ) :
    t - smooth_iter t f c n = (1 - f) ^ n * (t - c) := by
  induction n with
  | zero => simp [smooth_iter]
  | succ n ih =>
    have hstep : t - smooth_iter t f c (n + 1) =
        (1 - f) * (t - smooth_iter t f c n) := by
      show t - smooth_value (smooth_iter t f c n) t f = _
      unfold smooth_value
      ring
    rw [hstep, ih, pow_succ]
    ring

theorem smooth_iter_abs_gap {f : ℝ} (t c : ℝ) (n : ℕ) (h1 : f ≤ 1) :
    |smooth_iter t f c n - t| = (1 - f) ^ n * |c - t| := by
  have h := smooth_iter_gap t f c n
  have habs : |smooth_iter t f c n - t| = |t - smooth_iter t f c n| := abs_sub_comm _ _
  rw [habs, h, abs_mul, abs_pow, abs_of_nonneg (by linarith : (0:ℝ) ≤ 1 - f),
    abs_sub_comm t c]

theorem smooth_iter_tendsto {f ε : ℝ} (c t : ℝ) (h0 : 0 < f) (h1 : f < 1)
    (hε : 0 < ε) : ∃ N, ∀ n ≥ N, |smooth_iter t f c n - t| < ε := by
  by_cases hct : c = t
  · refine ⟨0, fun n _ => ?_⟩
    rw [smooth_iter_abs_gap t c n (le_of_lt h1), hct, sub_self, abs_zero, mul_zero]
    exact hε
  · have hpos : 0 < |c - t| := abs_pos.mpr (sub_ne_zero.mpr hct)
    obtain ⟨N, hN⟩ := exists_pow_lt_of_lt_one (div_pos hε hpos)
      (show (1:ℝ) - f < 1 by linarith)
    refine ⟨N, fun n hn => ?_⟩
    rw [smooth_iter_abs_gap t c n (le_of_lt h1)]
    have hmono : (1 - f) ^ n ≤ (1 - f) ^ N :=
      pow_le_pow_of_le_one (by linarith) (by linarith) hn
    calc (1 - f) ^ n * |c - t| ≤ (1 - f) ^ N * |c - t| :=
          mul_le_mul_of_nonneg_right hmono (le_of_lt hpos)
      _ < (ε / |c - t|) * |c - t| := by
          exact mul_lt_mul_of_pos_right hN hpos
      _ = ε := div_mul_cancel₀ ε (ne_of_gt hpos)


theorem normalize_openness_nonneg (d : ℝ) : 0 ≤ normalize_openness d :=
  le_max_left _ _

theorem normalize_openness_le_one (d : ℝ) : normalize_openness d ≤ 1 :=
  max_le (by norm_num) (min_le_left _ _)

theorem normalize_openness_eq_zero {d : ℝ} (h : d ≤ 0.10) :
    normalize_openness d = 0 := by
  unfold normalize_openness
  have hx : (d - 0.10) / (0.40 - 0.10) ≤ 0 := by
    apply div_nonpos_of_nonpos_of_nonneg <;> norm_num
    linarith
  rw [min_eq_right (le_trans hx (by norm_num)), max_eq_left hx]

theorem normalize_openness_eq_one {d : ℝ} (h : 0.40 ≤ d) :
    normalize_openness d = 1 := by
  unfold normalize_openness
  have hx : (1:ℝ) ≤ (d - 0.10) / (0.40 - 0.10) := by
    rw [le_div_iff₀ (by norm_num)]
    linarith
  rw [min_eq_left hx, max_eq_right (by norm_num)]

theorem normalize_openness_mono : Monotone normalize_openness := by
  intro a b hab
  unfold normalize_openness
  refine max_le_max le_rfl (min_le_min le_rfl ?_)
  gcongr

theorem apply_smoothing_smooth_factor (s : CubeState) :
    (apply_smoothing s).smooth_factor = s.smooth_factor := rfl

theorem apply_smoothing_scale_min (s : CubeState) :
    (apply_smoothing s).scale_min = s.scale_min := rfl

theorem apply_smoothing_scale_max (s : CubeState) :
    (apply_smoothing s).scale_max = s.scale_max := rfl

theorem apply_smoothing_target_scale (s : CubeState) :
    (apply_smoothing s).target_scale = s.target_scale := rfl

theorem apply_smoothing_target_rotation_x (s : CubeState) :
    (apply_smoothing s).target_rotation_x = s.target_rotation_x := rfl

theorem apply_smoothing_target_rotation_y (s : CubeState) :
    (apply_smoothing s).target_rotation_y = s.target_rotation_y := rfl

theorem apply_smoothing_control_hand (s : CubeState) :
    (apply_smoothing s).control_hand = s.control_hand := rfl

theorem apply_smoothing_rotation_hand (s : CubeState) :
    (apply_smoothing s).rotation_hand = s.rotation_hand := rfl

/-- The inductively preserved bound: the configuration keeps its
construction-time values and both the displayed and the target scale stay
inside `[scale_min, scale_max]`. -/
def goodState (s : CubeState) : Prop :=
  s.smooth_factor = 0.15 ∧ s.scale_min = 0.5 ∧ s.scale_max = 5.0 ∧
  s.scale_min ≤ s.scale ∧ s.scale ≤ s.scale_max ∧
  s.scale_min ≤ s.target_scale ∧ s.target_scale ≤ s.scale_max

theorem goodState_init : goodState initState := by
  unfold goodState initState
  norm_num

theorem goodState_step {s s' : CubeState} {f : HandFrame}
    (hg : goodState s) (h : process_hands s f = some s') : goodState s' := by
  obtain ⟨hsf, hmin, hmax, hs1, hs2, ht1, ht2⟩ := hg
  obtain ⟨s₁, hr, rfl⟩ := process_hands_elim h
  obtain ⟨hA1, _, _, hA4, hA5, hA6, _, _, hfz, _, hsome, _, _⟩ :=
    route_hands_elim s f s₁ hr
  have htarget : s.scale_min ≤ s₁.target_scale ∧ s₁.target_scale ≤ s.scale_max := by
    rcases hEl : (extract_hands f).1 with _ | l
    · rw [hfz hEl]; exact ⟨ht1, ht2⟩
    · obtain ⟨opn, ho, heq⟩ := hsome l hEl
      obtain ⟨hop0, hop1⟩ := openness_bounds ho
      rw [heq, hmin, hmax]
      constructor <;> nlinarith
  have hsm : (0:ℝ) ≤ s₁.smooth_factor ∧ s₁.smooth_factor ≤ 1 := by
    rw [hA4, hsf]; norm_num
  have hmem := smooth_value_mem hsm.1 hsm.2 (hA1.symm ▸ hs1) (hA1.symm ▸ hs2)
    htarget.1 htarget.2
  refine ⟨?_, ?_, ?_, ?_, ?_, ?_, ?_⟩
  · rw [apply_smoothing_smooth_factor, hA4, hsf]
  · rw [apply_smoothing_scale_min, hA5, hmin]
  · rw [apply_smoothing_scale_max, hA6, hmax]
  · rw [apply_smoothing_scale_min, apply_smoothing_scale, hA5]
    exact hmem.1
  · rw [apply_smoothing_scale_max, apply_smoothing_scale, hA6]
    exact hmem.2
  · rw [apply_smoothing_scale_min, apply_smoothing_target_scale, hA5]
    exact htarget.1
  · rw [apply_smoothing_scale_max, apply_smoothing_target_scale, hA6]
    exact htarget.2

theorem goodState_run {fs : List HandFrame} :
    ∀ {s s' : CubeState}, goodState s → run_frames s fs = some s' → goodState s' := by
  induction fs with
  | nil =>
    intro s s' hg h
    obtain rfl : s' = s := (Option.some.inj h).symm
    exact hg
  | cons f rest ih =>
    intro s s' hg h
    unfold run_frames at h
    rcases hp : process_hands s f with _ | s₁
    · rw [hp] at h; exact absurd h (by simp)
    · rw [hp] at h
      exact ih (goodState_step hg hp) h


theorem extract_fst_isSome_eq_any (f : HandFrame) :
    (extract_hands f).1.isSome = f.any (fun p => p.1 == "Left") := by
  rw [Bool.eq_iff_iff, extract_fst_isSome_iff, List.any_eq_true]
  simp

theorem extract_snd_isSome_eq_any (f : HandFrame) :
    (extract_hands f).2.isSome = f.any (fun p => p.1 == "Right") := by
  rw [Bool.eq_iff_iff, extract_snd_isSome_iff, List.any_eq_true]
  simp

theorem process_single_right :
    process_hands initState [("Right", handAt 0.75 0.5)] = some rightOutState := rfl


/-! ### Claim theorems -/

/-- C1: for every frame in which no Left hand is detected, `target_scale`
after the frame equals its value before the frame, and for every frame in
which no Right hand is detected, `target_rotation_x` and
`target_rotation_y` are left unchanged from the previous frame. -/
theorem freeze_targets_when_role_absent (s : CubeState) (f : HandFrame)
    (s' : CubeState) (h : process_hands s f = some s') :
    ((extract_hands f).1 = none → s'.target_scale = s.target_scale) ∧
    ((extract_hands f).2 = none → s'.target_rotation_x = s.target_rotation_x ∧
      s'.target_rotation_y = s.target_rotation_y) := by
  obtain ⟨s₁, hr, rfl⟩ := process_hands_elim h
  obtain ⟨_, _, _, _, _, _, _, _, hfz, hfr, _, _, _⟩ := route_hands_elim s f s₁ hr
  refine ⟨fun h1 => ?_, fun h2 => ?_⟩
  · exact (apply_smoothing_target_scale s₁).trans (hfz h1)
  · exact ⟨(apply_smoothing_target_rotation_x s₁).trans (hfr h2).1,
      (apply_smoothing_target_rotation_y s₁).trans (hfr h2).2⟩

theorem freeze_targets_when_role_absent_witness :
    ((extract_hands ([] : HandFrame)).1 = none →
      initState.target_scale = initState.target_scale) ∧
    ((extract_hands ([] : HandFrame)).2 = none →
      initState.target_rotation_x = initState.target_rotation_x ∧
      initState.target_rotation_y = initState.target_rotation_y) :=
  freeze_targets_when_role_absent initState [] initState process_empty

/-- C2: over frames whose handedness labels are all `"Left"` or `"Right"`,
the role assignment after a successful frame is a pure function of which
labels are present: the size-control role is `"left"` exactly when a Left
hand is present and the rotation-control role is `"right"` exactly when a
Right hand is present, independent of the previous state. -/
theorem role_assignment_from_labels (s : CubeState) (f : HandFrame)
    (s' : CubeState) (hlab : ∀ p ∈ f, p.1 = "Left" ∨ p.1 = "Right")
    (h : process_hands s f = some s') :
    s'.control_hand =
      (if f.any (fun p => p.1 == "Left") then some "left" else none) ∧
    s'.rotation_hand =
      (if f.any (fun p => p.1 == "Right") then some "right" else none) := by
  obtain ⟨s₁, hr, rfl⟩ := process_hands_elim h
  obtain ⟨_, _, _, _, _, _, _, _, _, _, _, _, hroles⟩ := route_hands_elim s f s₁ hr
  have hdisj : f.isEmpty = true ∨ (extract_hands f).1.isSome = true ∨
      (extract_hands f).2.isSome = true := by
    rcases f with _ | ⟨p, t⟩
    · exact Or.inl rfl
    · rcases hlab p (by simp) with hp | hp
      · exact Or.inr (Or.inl ((extract_fst_isSome_iff _).mpr ⟨p, by simp, hp⟩))
      · exact Or.inr (Or.inr ((extract_snd_isSome_iff _).mpr ⟨p, by simp, hp⟩))
  obtain ⟨hc, hrh⟩ := hroles hdisj
  constructor
  · rw [apply_smoothing_control_hand, hc, extract_fst_isSome_eq_any]
  · rw [apply_smoothing_rotation_hand, hrh, extract_snd_isSome_eq_any]

theorem role_assignment_from_labels_witness :
    rightOutState.control_hand = none ∧
    rightOutState.rotation_hand = some "right" := by
  have h := role_assignment_from_labels initState [("Right", handAt 0.75 0.5)]
    rightOutState
    (by intro p hp; rw [List.mem_singleton] at hp; subst hp; exact Or.inr rfl)
    process_single_right
  simpa using h

/-- C3: each successful frame applies `smooth_value` exactly once per
scalar field, moving the previous current value toward the frame's final
target with the stored smoothing factor (`0.15`, strictly between 0 and 1);
a single step never overshoots and moves monotonically toward the target;
against a constant target the absolute gap shrinks by exactly the factor
`1 - factor` per call, hence drops below any positive `ε` after finitely
many calls. -/
theorem smoothing_per_frame_and_convergence :
    (∀ (s : CubeState) (f : HandFrame) (s' : CubeState),
      process_hands s f = some s' →
        s'.scale = smooth_value s.scale s'.target_scale s.smooth_factor ∧
        s'.rotation_x =
          smooth_value s.rotation_x s'.target_rotation_x s.smooth_factor ∧
        s'.rotation_y =
          smooth_value s.rotation_y s'.target_rotation_y s.smooth_factor) ∧
    (initState.smooth_factor = 0.15 ∧ 0 < initState.smooth_factor ∧
      initState.smooth_factor < 1) ∧
    (∀ c t fac : ℝ, 0 < fac → fac < 1 →
      (t - smooth_value c t fac = (1 - fac) * (t - c)) ∧
      (c ≤ t → c ≤ smooth_value c t fac ∧ smooth_value c t fac ≤ t) ∧
      (t ≤ c → t ≤ smooth_value c t fac ∧ smooth_value c t fac ≤ c)) ∧
    (∀ (c t fac : ℝ) (n : ℕ), fac ≤ 1 →
      |smooth_iter t fac c n - t| = (1 - fac) ^ n * |c - t|) ∧
    (∀ c t fac ε : ℝ, 0 < fac → fac < 1 → 0 < ε →
      ∃ N, ∀ n ≥ N, |smooth_iter t fac c n - t| < ε) := by
  refine ⟨?_, by norm_num [initState], ?_, ?_, ?_⟩
  · intro s f s' h
    obtain ⟨s₁, hr, rfl⟩ := process_hands_elim h
    obtain ⟨hA1, hA2, hA3, hA4, _, _, _, _, _, _, _, _, _⟩ :=
      route_hands_elim s f s₁ hr
    refine ⟨?_, ?_, ?_⟩
    · rw [apply_smoothing_scale, apply_smoothing_target_scale, hA1, hA4]
    · rw [apply_smoothing_rotation_x, apply_smoothing_target_rotation_x, hA2, hA4]
    · rw [apply_smoothing_rotation_y, apply_smoothing_target_rotation_y, hA3, hA4]
  · intro c t fac h0 h1
    refine ⟨by unfold smooth_value; ring, fun hct => ?_, fun htc => ?_⟩
    · unfold smooth_value
      constructor <;> nlinarith
    · unfold smooth_value
      constructor <;> nlinarith
  · intro c t fac n h1
    exact smooth_iter_abs_gap t c n h1
  · intro c t fac ε h0 h1 hε
    exact smooth_iter_tendsto c t h0 h1 hε

theorem smoothing_per_frame_and_convergence_witness :
    ((2.75:ℝ) - smooth_value 2 2.75 0.15 = (1 - 0.15) * (2.75 - 2)) ∧
    initState.scale =
      smooth_value initState.scale initState.target_scale initState.smooth_factor :=
  ⟨(smoothing_per_frame_and_convergence.2.2.1 2 2.75 0.15 (by norm_num)
      (by norm_num)).1,
    (smoothing_per_frame_and_convergence.1 initState [] initState process_empty).1⟩

/-- C4: the openness normalization is monotone, and for every hand with the
full 21-keypoint topology, `calculate_palm_openness` returns the average of
the five wrist-to-fingertip Euclidean distances mapped by that clamped
linear normalization: the result lies in `[0, 1]`, an average at or below
`0.10` yields exactly 0 and at or above `0.40` yields exactly 1. -/
theorem palm_openness_range_and_monotone :
    Monotone normalize_openness ∧
    ∀ hand : List Landmark, hand.length = 21 →
      ∃ avg, avg_fingertip_distance hand = some avg ∧
        calculate_palm_openness hand = some (normalize_openness avg) ∧
        0 ≤ normalize_openness avg ∧ normalize_openness avg ≤ 1 ∧
        (avg ≤ 0.10 → normalize_openness avg = 0) ∧
        (0.40 ≤ avg → normalize_openness avg = 1) := by
  refine ⟨normalize_openness_mono, fun hand hlen => ?_⟩
  obtain ⟨avg, ha, hc⟩ := calc_openness_eq (show 20 < hand.length by omega)
  exact ⟨avg, ha, hc, normalize_openness_nonneg avg, normalize_openness_le_one avg,
    fun h => normalize_openness_eq_zero h, fun h => normalize_openness_eq_one h⟩

theorem palm_openness_range_and_monotone_witness :
    ∃ avg, avg_fingertip_distance (handAt 0 0) = some avg ∧
      calculate_palm_openness (handAt 0 0) = some (normalize_openness avg) ∧
      0 ≤ normalize_openness avg ∧ normalize_openness avg ≤ 1 ∧
      (avg ≤ 0.10 → normalize_openness avg = 0) ∧
      (0.40 ≤ avg → normalize_openness avg = 1) :=
  palm_openness_range_and_monotone.2 (handAt 0 0) (by simp [handAt])


/-- C5: whenever the rotation-control role is assigned, the rotation
targets are recomputed from the wrist position as
`target_rotation_y = (x - 0.5) * sensY` and
`target_rotation_x = (0.5 - y) * sensX`; with the construction defaults
`sensX = 180`, `sensY = 360`, a single Right hand at `(0.75, 0.5)` yields
`target_rotation_y = 90` and `target_rotation_x = 0`. -/
theorem rotation_targets_formula :
    (∀ (s : CubeState) (hand : List Landmark) (w : Landmark),
      hand[0]? = some w →
      update_rotation_from_hand s hand =
        some { s with
          target_rotation_y := (w.x - 0.5) * s.rotation_y_sensitivity,
          target_rotation_x := (0.5 - w.y) * s.rotation_x_sensitivity }) ∧
    (∀ (s : CubeState) (f : HandFrame) (s' : CubeState) (r : List Landmark),
      (extract_hands f).2 = some r → process_hands s f = some s' →
      ∃ w, r[0]? = some w ∧
        s'.target_rotation_y = (w.x - 0.5) * s.rotation_y_sensitivity ∧
        s'.target_rotation_x = (0.5 - w.y) * s.rotation_x_sensitivity) ∧
    (initState.rotation_x_sensitivity = 180 ∧
      initState.rotation_y_sensitivity = 360) ∧
    (∃ s', process_hands initState [("Right", handAt 0.75 0.5)] = some s' ∧
      s'.target_rotation_y = 90 ∧ s'.target_rotation_x = 0) := by
  refine ⟨?_, ?_, ⟨rfl, rfl⟩, ?_⟩
  · intro s hand w hw
    unfold update_rotation_from_hand get_hand_position
    rw [hw]
    rfl
  · intro s f s' r hE h
    obtain ⟨s₁, hr, rfl⟩ := process_hands_elim h
    obtain ⟨_, _, _, _, _, _, _, _, _, _, _, hrot, _⟩ := route_hands_elim s f s₁ hr
    obtain ⟨w, hw, hx, hy⟩ := hrot r hE
    exact ⟨w, hw, (apply_smoothing_target_rotation_y s₁).trans hy,
      (apply_smoothing_target_rotation_x s₁).trans hx⟩
  · refine ⟨rightOutState, process_single_right, ?_, ?_⟩
    · have h1 : rightOutState.target_rotation_y = (0.75 - 0.5) * 360 := rfl
      rw [h1]; norm_num
    · have h2 : rightOutState.target_rotation_x = (0.5 - 0.5) * 180 := rfl
      rw [h2]; norm_num

theorem rotation_targets_formula_witness :
    update_rotation_from_hand initState (handAt 0.75 0.5) =
      some { initState with
        target_rotation_y := ((0.75:ℝ) - 0.5) * initState.rotation_y_sensitivity,
        target_rotation_x := ((0.5:ℝ) - 0.5) * initState.rotation_x_sensitivity } :=
  rotation_targets_formula.1 initState (handAt 0.75 0.5) ⟨0.75, 0.5⟩
    (handAt_getElem0 0.75 0.5)

/-- C6: whenever the size-control role is assigned, the scale target is set
to `scale_min + openness * (scale_max - scale_min)`; the openness is
pre-clamped to `[0, 1]`, so for `scale_min < scale_max` the target lies in
`[scale_min, scale_max]`, with openness 0 yielding exactly `scale_min` and
openness 1 yielding exactly `scale_max`. -/
theorem scale_target_formula :
    (∀ (s : CubeState) (hand : List Landmark) (opn : ℝ),
      calculate_palm_openness hand = some opn →
        update_scale_from_palm s hand =
          some { s with
            target_scale := s.scale_min + opn * (s.scale_max - s.scale_min) } ∧
        0 ≤ opn ∧ opn ≤ 1 ∧
        (s.scale_min < s.scale_max →
          s.scale_min ≤ s.scale_min + opn * (s.scale_max - s.scale_min) ∧
          s.scale_min + opn * (s.scale_max - s.scale_min) ≤ s.scale_max) ∧
        (opn = 0 → s.scale_min + opn * (s.scale_max - s.scale_min) = s.scale_min) ∧
        (opn = 1 → s.scale_min + opn * (s.scale_max - s.scale_min) = s.scale_max)) ∧
    (∀ (s : CubeState) (f : HandFrame) (s' : CubeState) (l : List Landmark),
      (extract_hands f).1 = some l → process_hands s f = some s' →
      ∃ opn, calculate_palm_openness l = some opn ∧ 0 ≤ opn ∧ opn ≤ 1 ∧
        s'.target_scale = s.scale_min + opn * (s.scale_max - s.scale_min)) := by
  constructor
  · intro s hand opn h
    obtain ⟨hop0, hop1⟩ := openness_bounds h
    refine ⟨?_, hop0, hop1, fun hlt => ?_, fun h0 => ?_, fun h1 => ?_⟩
    · unfold update_scale_from_palm
      rw [h]
    · constructor <;> nlinarith
    · rw [h0]; ring
    · rw [h1]; ring
  · intro s f s' l hE h
    obtain ⟨s₁, hr, rfl⟩ := process_hands_elim h
    obtain ⟨_, _, _, _, _, _, _, _, _, _, hsome, _, _⟩ := route_hands_elim s f s₁ hr
    obtain ⟨opn, ho, heq⟩ := hsome l hE
    obtain ⟨hop0, hop1⟩ := openness_bounds ho
    exact ⟨opn, ho, hop0, hop1, (apply_smoothing_target_scale s₁).trans heq⟩

theorem scale_target_formula_witness :
    update_scale_from_palm initState (handAt 0 0) =
      some { initState with
        target_scale :=
          initState.scale_min + 0 * (initState.scale_max - initState.scale_min) } :=
  (scale_target_formula.1 initState (handAt 0 0) 0 (handAt_openness 0 0)).1

/-- C7 counterexample: the claim "every hand whose keypoint count differs
from 21 makes both feature extractors fault" is false: a hand with 22
keypoints is silently accepted by `calculate_palm_openness` (all accessed
indices 0..20 exist). -/
theorem keypoint_mismatch_fault_cex :
    ¬ (∀ hand : List Landmark, hand.length ≠ 21 →
        calculate_palm_openness hand = none ∧ get_hand_position hand = none) := by
  intro hclaim
  have h22 : (List.replicate 22 (⟨0, 0⟩ : Landmark)).length ≠ 21 := by simp
  have h := (hclaim _ h22).1
  rw [calc_openness_none_iff] at h
  simp at h

/-- C7 (amended): `calculate_palm_openness` faults exactly when the
keypoint count is below 21 (an accessed index is missing) and
`get_hand_position` faults exactly when the hand has no keypoints at all;
hands with extra keypoints beyond 21 are silently tolerated, and no
21-keypoint hand makes either extractor fault. -/
theorem keypoint_fault_characterization :
    ∀ hand : List Landmark,
      (calculate_palm_openness hand = none ↔ hand.length < 21) ∧
      (get_hand_position hand = none ↔ hand.length = 0) ∧
      (hand.length = 21 →
        calculate_palm_openness hand ≠ none ∧ get_hand_position hand ≠ none) := by
  intro hand
  refine ⟨calc_openness_none_iff hand, get_hand_position_none_iff hand,
    fun h21 => ⟨?_, ?_⟩⟩
  · simp only [ne_eq, calc_openness_none_iff]; omega
  · simp only [ne_eq, get_hand_position_none_iff]; omega

theorem keypoint_fault_characterization_witness :
    calculate_palm_openness (handAt 0 0) ≠ none ∧
    get_hand_position (handAt 0 0) ≠ none :=
  (keypoint_fault_characterization (handAt 0 0)).2.2 (by simp [handAt])

/-- C8: handedness is the sole key of the per-hand loop, so among
duplicate labels the later-listed hand silently overwrites the earlier:
the extracted left hand is exactly the last `"Left"`-labelled entry of the
reported sequence and the extracted right hand the last
`"Right"`-labelled one. -/
theorem duplicate_handedness_last_wins (f : HandFrame) :
    (extract_hands f).1 =
      ((f.reverse.find? fun p => p.1 == "Left").map Prod.snd) ∧
    (extract_hands f).2 =
      ((f.reverse.find? fun p => p.1 == "Right").map Prod.snd) := by
  rw [extract_hands_eq]
  exact ⟨rfl, rfl⟩

/-- C9: the initial scale and scale target (2.0) lie inside the
construction bounds `[0.5, 5.0]`; the smoothing step is a convex
combination that stays inside any interval containing both its inputs; a
present size-control role only rewrites the target into
`[scale_min, scale_max]`; consequently every state reachable from the
initial state keeps both `scale` and `target_scale` inside
`[scale_min, scale_max]`. -/
theorem scale_bounded_invariant :
    (initState.scale = 2.0 ∧ initState.target_scale = 2.0 ∧
      initState.scale_min = 0.5 ∧ initState.scale_max = 5.0 ∧
      initState.scale_min ≤ initState.scale ∧
      initState.scale ≤ initState.scale_max) ∧
    (∀ c t fac lo hi : ℝ, 0 ≤ fac → fac ≤ 1 → lo ≤ c → c ≤ hi → lo ≤ t →
      t ≤ hi → lo ≤ smooth_value c t fac ∧ smooth_value c t fac ≤ hi) ∧
    (∀ (s : CubeState) (f : HandFrame) (s' : CubeState) (l : List Landmark),
      (extract_hands f).1 = some l → process_hands s f = some s' →
      s.scale_min ≤ s.scale_max →
      s.scale_min ≤ s'.target_scale ∧ s'.target_scale ≤ s.scale_max) ∧
    (∀ (fs : List HandFrame) (s' : CubeState),
      run_frames initState fs = some s' →
      s'.scale_min ≤ s'.scale ∧ s'.scale ≤ s'.scale_max ∧
      s'.scale_min ≤ s'.target_scale ∧ s'.target_scale ≤ s'.scale_max) := by
  refine ⟨by norm_num [initState], ?_, ?_, ?_⟩
  · intro c t fac lo hi h0 h1 hlc hch hlt hth
    exact smooth_value_mem h0 h1 hlc hch hlt hth
  · intro s f s' l hE h hle
    obtain ⟨s₁, hr, rfl⟩ := process_hands_elim h
    obtain ⟨_, _, _, _, _, _, _, _, _, _, hsome, _, _⟩ := route_hands_elim s f s₁ hr
    obtain ⟨opn, ho, heq⟩ := hsome l hE
    obtain ⟨hop0, hop1⟩ := openness_bounds ho
    rw [apply_smoothing_target_scale, heq]
    constructor <;> nlinarith
  · intro fs s' h
    obtain ⟨_, _, _, h4, h5, h6, h7⟩ := goodState_run goodState_init h
    exact ⟨h4, h5, h6, h7⟩

theorem scale_bounded_invariant_witness :
    initState.scale_min ≤ initState.scale ∧
    initState.scale ≤ initState.scale_max ∧
    initState.scale_min ≤ initState.target_scale ∧
    initState.target_scale ≤ initState.scale_max :=
  scale_bounded_invariant.2.2.2 [] initState rfl

/-- C10: smoothing fixes any point whose current value equals its target;
the initial state has every current value equal to its target, so
processing any number of hand-free frames returns exactly the initial
state. -/
theorem no_hands_fixed_point :
    (∀ c fac : ℝ, smooth_value c c fac = c) ∧
    (initState.scale = initState.target_scale ∧
      initState.rotation_x = initState.target_rotation_x ∧
      initState.rotation_y = initState.target_rotation_y ∧
      initState.scale = 2.0 ∧ initState.rotation_x = 20 ∧
      initState.rotation_y = 30) ∧
    (∀ n : ℕ, run_frames initState (List.replicate n []) = some initState) := by
  refine ⟨fun c fac => by unfold smooth_value; ring,
    ⟨rfl, rfl, rfl, rfl, rfl, rfl⟩, fun n => ?_⟩
  induction n with
  | zero => rfl
  | succ n ih =>
    rw [List.replicate_succ]
    unfold run_frames
    rw [process_empty]
    exact ih

end

end ARCube
